import Mathlib

/-!
Verification of the IntelliGraph knowledge-graph / hybrid-retrieval system.

The repository ships the static web UI (`script.js`); the backend components
(Graph Store, Ingestion Coordinator, Embedding Index, ATS Scorer) are called
by the UI but their code is not in the repository, so those components are
modelled from the specification. UI functions (`analyzeSingleResume`'s score
banding, `submitQuery`'s result rendering, `handleDrop`'s PDF filter,
`pollProcessingStatus`'s bounded polling loop) are embedded directly from
`script.js`.
-/

namespace IntelliGraph

/-! ## Graph Store and Ingestion Coordinator (modelled from the spec) -/

/-- Drop leading and trailing whitespace from a character list. -/
def trimChars (cs : List Char) : List Char :=
  (((cs.dropWhile Char.isWhitespace).reverse.dropWhile
    Char.isWhitespace)).reverse

/-- Modelled from the spec: identity of shared nodes (Skill, Institution,
Technology) is the "normalized name (case/whitespace-folded)". -/
def normalizeName (s : String) : String :=
  String.mk ((trimChars s.toList).map Char.toLower)

/-- Modelled from the spec: document bytes, abstracted as a list of byte
values. -/
abbrev DocBytes := List Nat

/-- Modelled from the spec: "Checksum: a content hash used to detect
duplicate document uploads". Modelled as a collision-free deterministic
digest, namely the content itself. -/
abbrev Checksum := List Nat

/-- Modelled from the spec: `upsert_candidate` "computes the checksum
first"; identical bytes always produce the same checksum. -/
def checksum (bytes : DocBytes) : Checksum := bytes

/-- An Education entity owned by one Candidate: degree, institution
reference, optional year (spec data model). -/
structure Education where
  degree : String
  institution : String
  year : Option Nat
  deriving DecidableEq, Repr

/-- A Candidate node: name plus the content checksum of its source
document (spec data model). -/
structure Candidate where
  name : String
  cksum : Checksum
  deriving DecidableEq, Repr

/-- A Project owned by one Candidate: name, role, ordered list of
Technology references (spec data model). -/
structure Project where
  name : String
  role : String
  technologies : List String
  deriving DecidableEq, Repr

/-- The extraction output for one document that the Ingestion Coordinator
feeds to the Graph Store: name, skills, education entries, projects
(spec §6, `extract(raw_text)`). -/
structure EntityDraft where
  name : String
  skills : List String
  education : List Education
  projects : List Project
  deriving DecidableEq, Repr

/-- Modelled from the spec: the Graph Store state. The shared node kinds
Skill, Institution and Technology are kept by their normalized names;
`hasSkill` is the HAS_SKILL relation keyed by the candidate checksum;
`educations` pairs each Education node (whose institution field is the
reference to the normalized Institution node) with its owning candidate. -/
structure Graph where
  candidates : List Candidate
  skills : List String
  institutions : List String
  technologies : List String
  hasSkill : List (Checksum × String)
  educations : List (Checksum × Education)
  deriving DecidableEq, Repr

/-- The empty graph. -/
def Graph.empty : Graph := ⟨[], [], [], [], [], []⟩

/-- A single write inside one document's transaction. -/
inductive WriteOp where
  | addCandidate (c : Candidate)
  | addSkill (n : String)
  | addInstitution (n : String)
  | addTechnology (n : String)
  | addHasSkill (cid : Checksum) (n : String)
  | addEducation (cid : Checksum) (e : Education)
  deriving DecidableEq, Repr

/-- Modelled from the spec: applying one write. Skill, Institution and
Technology creation is "get-or-create" keyed by the (already) normalized
name: an existing node is reused, never duplicated; HAS_SKILL edges are
likewise added at most once. -/
def applyOp (g : Graph) : WriteOp → Graph
  | .addCandidate c => { g with candidates := g.candidates ++ [c] }
  | .addSkill n =>
      if n ∈ g.skills then g else { g with skills := g.skills ++ [n] }
  | .addInstitution n =>
      if n ∈ g.institutions then g
      else { g with institutions := g.institutions ++ [n] }
  | .addTechnology n =>
      if n ∈ g.technologies then g
      else { g with technologies := g.technologies ++ [n] }
  | .addHasSkill cid n =>
      if (cid, n) ∈ g.hasSkill then g
      else { g with hasSkill := g.hasSkill ++ [(cid, n)] }
  | .addEducation cid e => { g with educations := g.educations ++ [(cid, e)] }

/-- Modelled from the spec: the write plan for one document — the new
Candidate; for each listed skill a get-or-create of the Skill node and a
HAS_SKILL edge; for each education entry a get-or-create of the referenced
Institution node and the owned Education node referencing it by normalized
name; for each project a get-or-create of each referenced Technology
node. -/
def planWrites (c : Checksum) (draft : EntityDraft) : List WriteOp :=
  WriteOp.addCandidate ⟨draft.name, c⟩ ::
    (draft.skills.flatMap (fun s =>
      [WriteOp.addSkill (normalizeName s),
       WriteOp.addHasSkill c (normalizeName s)]) ++
     draft.education.flatMap (fun e =>
      [WriteOp.addInstitution (normalizeName e.institution),
       WriteOp.addEducation c
         { e with institution := normalizeName e.institution }]) ++
     draft.projects.flatMap (fun p =>
      p.technologies.map (fun t => WriteOp.addTechnology (normalizeName t))))

/-- Modelled from the spec: graph writes for one document are atomic as a
unit. `failAfter = some i` simulates a write failure at the `i`-th
operation of the transaction: the whole transaction is rolled back and no
partial subgraph is visible. -/
def runTransaction (g : Graph) (ops : List WriteOp) (failAfter : Option Nat) :
    Option Graph :=
  match failAfter with
  | some i => if i < ops.length then none else some (ops.foldl applyOp g)
  | none => some (ops.foldl applyOp g)

/-- Result of ingesting one document (spec §7 error taxonomy). -/
inductive IngestResult where
  | ok (id : Checksum)
  | duplicateDocument
  | graphWriteFailure
  deriving DecidableEq, Repr

/-- Modelled from the spec: `upsert_candidate` computes the checksum first;
if an existing Candidate shares the checksum it returns `DuplicateDocument`
without side effects; otherwise it commits the whole subgraph
transactionally (rolled back on a simulated mid-transaction failure). -/
def upsert_candidate (g : Graph) (bytes : DocBytes) (draft : EntityDraft)
    (failAfter : Option Nat) : IngestResult × Graph :=
  let c := checksum bytes
  if c ∈ g.candidates.map Candidate.cksum then (.duplicateDocument, g)
  else
    match runTransaction g (planWrites c draft) failAfter with
    | none => (.graphWriteFailure, g)
    | some g2 => (.ok c, g2)

/-- `true` exactly on Candidate-creating writes. -/
def WriteOp.touchesCandidates : WriteOp → Bool
  | .addCandidate _ => true
  | _ => false

/-! ## ATS Scorer (modelled from the spec; a pure function) -/

/-- Modelled from the spec: the configurable stop-word exclusion list used
by keyword extraction. -/
def stopWords : List String :=
  ["a", "an", "the", "and", "or", "for", "with", "in", "on", "of", "to",
   "is", "are", "we", "be", "as", "at", "by", "from", "this", "that",
   "looking", "experience", "required", "preferred", "years"]

/-- Split a character list into maximal whitespace-free words; `acc` holds
the characters of the current word in reverse. -/
def wordsAux : List Char → List Char → List String
  | [], acc => if acc.isEmpty then [] else [String.mk acc.reverse]
  | c :: cs, acc =>
      if c.isWhitespace then
        if acc.isEmpty then wordsAux cs []
        else String.mk acc.reverse :: wordsAux cs []
      else wordsAux cs (c :: acc)

/-- Modelled from the spec: normalize and tokenize a text — case-fold and
split into whitespace-separated words. -/
def tokenize (text : String) : List String :=
  wordsAux (text.toList.map Char.toLower) []

/-- Modelled from the spec: keyword extraction — normalize and tokenize the
job description, exclude stop words, deduplicate (keeping first
occurrences), already case-folded by `tokenize`. -/
def extractKeywords (jd : String) : List String :=
  ((tokenize jd).filter (fun t => !stopWords.contains t)).eraseDups

/-- Modelled from the spec: a keyword matches if it (as a normalized
variant) appears among the candidate text's normalized tokens. -/
def keywordMatches (kw : String) (candidateText : String) : Bool :=
  (tokenize candidateText).contains kw

/-- The record produced by the ATS scorer (spec §4.5). -/
structure AtsResult where
  score : ℚ
  keyword_match_rate : ℚ
  matching_keywords : List String
  missing_keywords : List String
  recommendations : List String
  deriving DecidableEq, Repr

/-- Modelled from the spec: `score(job_description, candidate_text)`.
`keyword_match_rate = matches / total_keywords * 100`; the overall score
uses the documented deterministic weighting that puts full weight on the
keyword match rate (no graph projection is available when scoring raw
text); recommendations are a deterministic template over the missing
keywords. -/
def ats_score (jd candidateText : String) : AtsResult :=
  let kws := extractKeywords jd
  let matching := kws.filter (fun k => keywordMatches k candidateText)
  let missing := kws.filter (fun k => !keywordMatches k candidateText)
  let rate : ℚ :=
    if kws.length = 0 then 0
    else (matching.length : ℚ) / (kws.length : ℚ) * 100
  { score := rate
    keyword_match_rate := rate
    matching_keywords := matching
    missing_keywords := missing
    recommendations := missing.map (fun k => "Add experience with " ++ k) }

/-! ## Embedding Index (modelled from the spec) -/

/-- A TextSegment held by the Embedding Index: owning candidate, insertion
index, text, embedding vector (spec data model). -/
structure Segment where
  owner : Checksum
  idx : Nat
  text : String
  vec : List ℚ
  deriving DecidableEq, Repr

/-- Modelled from the spec: the similarity metric, in its "equivalent
normalized inner product" form of cosine similarity. -/
def similarity (q v : List ℚ) : ℚ := (List.zipWith (· * ·) q v).sum

/-- The ranking relation realized by `search`: strictly higher similarity
first; ties broken by the original segment insertion order. -/
def rankedBefore (q : List ℚ) (a b : Segment) : Prop :=
  similarity q b.vec < similarity q a.vec ∨
    (similarity q a.vec = similarity q b.vec ∧ a.idx ≤ b.idx)

instance (q : List ℚ) : DecidableRel (rankedBefore q) := fun a b => by
  unfold rankedBefore; infer_instance

instance (q : List ℚ) : IsTotal Segment (rankedBefore q) := by
  constructor
  intro a b
  rcases lt_trichotomy (similarity q a.vec) (similarity q b.vec) with h | h | h
  · exact Or.inr (Or.inl h)
  · rcases Nat.le_total a.idx b.idx with hi | hi
    · exact Or.inl (Or.inr ⟨h, hi⟩)
    · exact Or.inr (Or.inr ⟨h.symm, hi⟩)
  · exact Or.inl (Or.inl h)

instance (q : List ℚ) : IsTrans Segment (rankedBefore q) := by
  constructor
  intro a b c hab hbc
  rcases hab with hab | ⟨hab, hiab⟩ <;> rcases hbc with hbc | ⟨hbc, hibc⟩
  · exact Or.inl (hbc.trans hab)
  · exact Or.inl (hbc ▸ hab)
  · exact Or.inl (hab.symm ▸ hbc)
  · exact Or.inr ⟨hab.trans hbc, hiab.trans hibc⟩

/-- Modelled from the spec: `search(query_vector, k)` — an ordered sequence
by descending similarity, stable on ties (insertion order), truncated to
the first `k`. -/
def search (store : List Segment) (q : List ℚ) (k : Nat) : List Segment :=
  (store.insertionSort (rankedBefore q)).take k

/-! ## UI behavior (embedded from script.js) -/

/-- JavaScript `a || b` on an optional string: `b` when the string is
absent or empty (falsy), otherwise the string itself. -/
def jsOrDefault (s : Option String) (dflt : String) : String :=
  match s with
  | none => dflt
  | some e => if e.isEmpty then dflt else e

/-- From `analyzeSingleResume` (script.js line 636): the presentation band
applied to `result.ats_score` when rendering a single-resume ATS result. -/
def scoreClass (ats : ℚ) : String :=
  if ats ≥ 70 then "high" else if ats ≥ 40 then "medium" else "low"

/-- The fields of a `/query` response that `submitQuery` consumes. -/
structure QueryResponse where
  success : Bool
  result : String
  error : Option String
  deriving DecidableEq, Repr

/-- What `submitQuery` renders into the results pane. -/
inductive QueryView where
  | results (text : String)
  | errorView (text : String)
  deriving DecidableEq, Repr

/-- From `submitQuery` (script.js lines 510-520): a successful response
renders the result text under "Query Results"; a failed one renders the
response's error text, or 'Failed to process query' when absent/empty,
as an error. -/
def renderQueryResponse (r : QueryResponse) : QueryView :=
  if r.success then QueryView.results r.result
  else QueryView.errorView (jsOrDefault r.error "Failed to process query")

/-- A file handed to the drop handler: name and MIME type (`file.type`). -/
structure DroppedFile where
  name : String
  mimeType : String
  deriving DecidableEq, Repr

/-- The outward effect of `handleDrop`. -/
inductive DropAction where
  | warn (message : String)
  | upload (files : List DroppedFile)
  deriving DecidableEq, Repr

/-- From `handleDrop` (script.js lines 157-171): keep only the dropped
files whose MIME type is exactly 'application/pdf'; when none remain, show
a warning toast and make no upload request; otherwise upload the kept
files. -/
def handleDrop (dropped : List DroppedFile) : DropAction :=
  let files := dropped.filter (fun f => f.mimeType == "application/pdf")
  if files.length = 0 then DropAction.warn "Please select PDF files only"
  else DropAction.upload files

/-- One backend answer to a processing-status poll for a given filename. -/
inductive PollResult where
  | processed
  | failed (error : Option String)
  | pending
  | networkError
  deriving DecidableEq, Repr

/-- The final state `pollProcessingStatus` leaves on the file item. -/
inductive FileStatus where
  | success
  | errorStatus (message : String)
  deriving DecidableEq, Repr

/-- From `pollProcessingStatus` (script.js line 278): `maxAttempts = 30`. -/
def maxAttempts : Nat := 30

/-- From `pollProcessingStatus` (script.js lines 275-314): one poll
consults the status endpoint for the file. 'processed' stops with success;
'failed' stops with the reported error (or 'Processing failed'); a fetch
error stops with 'Status check failed'; otherwise `attempts` is
incremented and another poll is scheduled while `attempts < maxAttempts`,
after which the item is marked 'Processing timeout'. `fuel` stands for
`maxAttempts - attempts - 1`, the number of re-polls still allowed; the
result pairs the total number of polls made with the final status. -/
def pollAux (oracle : Nat → PollResult) : Nat → Nat → Nat × FileStatus
  | attempts, fuel =>
    match oracle attempts with
    | .processed => (attempts + 1, FileStatus.success)
    | .failed e =>
        (attempts + 1, FileStatus.errorStatus (jsOrDefault e "Processing failed"))
    | .networkError => (attempts + 1, FileStatus.errorStatus "Status check failed")
    | .pending =>
      match fuel with
      | 0 => (attempts + 1, FileStatus.errorStatus "Processing timeout")
      | fuel' + 1 => pollAux oracle (attempts + 1) fuel'

/-- The polling loop for one uploaded filename, where `oracle n` is the
backend's answer to the `n`-th poll. -/
def pollProcessingStatus (oracle : Nat → PollResult) : Nat × FileStatus :=
  pollAux oracle 0 (maxAttempts - 1)

/-- The file status a single non-pending poll answer produces (the value
for `pending` is irrelevant and never used). -/
def stepStatus : PollResult → FileStatus
  | .processed => FileStatus.success
  | .failed e => FileStatus.errorStatus (jsOrDefault e "Processing failed")
  | .networkError => FileStatus.errorStatus "Status check failed"
  | .pending => FileStatus.success

/-! ### Transaction fold lemmas -/

theorem applyOp_candidates (g : Graph) (op : WriteOp)
    (h : op.touchesCandidates = false) :
    (applyOp g op).candidates = g.candidates := by
  cases op with
  | addCandidate c => simp [WriteOp.touchesCandidates] at h
  | addSkill n => simp only [applyOp]; split <;> rfl
  | addInstitution n => simp only [applyOp]; split <;> rfl
  | addTechnology n => simp only [applyOp]; split <;> rfl
  | addHasSkill cid n => simp only [applyOp]; split <;> rfl
  | addEducation cid e => rfl

theorem foldl_candidates (g : Graph) (ops : List WriteOp)
    (h : ∀ op ∈ ops, op.touchesCandidates = false) :
    (ops.foldl applyOp g).candidates = g.candidates := by
  induction ops generalizing g with
  | nil => rfl
  | cons hd tl ih =>
      rw [List.foldl_cons, ih _ (fun op hm => h op (List.mem_cons_of_mem _ hm)),
        applyOp_candidates _ _ (h hd (List.mem_cons_self _ _))]

theorem planWrites_tail_benign (c : Checksum) (draft : EntityDraft) :
    ∀ op ∈ (planWrites c draft).tail, op.touchesCandidates = false := by
  intro op hm
  simp only [planWrites, List.tail_cons, List.mem_append, List.mem_flatMap,
    List.mem_map, List.mem_cons, List.mem_singleton, List.not_mem_nil,
    or_false] at hm
  rcases hm with (⟨s, -, rfl | rfl⟩ | ⟨e, -, rfl | rfl⟩) |
    ⟨p, -, t, -, rfl⟩ <;> rfl

theorem candidates_fold_plan (g : Graph) (c : Checksum) (draft : EntityDraft) :
    ((planWrites c draft).foldl applyOp g).candidates =
      g.candidates ++ [⟨draft.name, c⟩] := by
  have : planWrites c draft =
      WriteOp.addCandidate ⟨draft.name, c⟩ :: (planWrites c draft).tail := rfl
  rw [this, List.foldl_cons,
    foldl_candidates _ _ (planWrites_tail_benign c draft)]
  rfl

theorem applyOp_skills_mono (g : Graph) (op : WriteOp) {n : String}
    (h : n ∈ g.skills) : n ∈ (applyOp g op).skills := by
  cases op with
  | addCandidate c => exact h
  | addSkill m =>
      simp only [applyOp]; split
      · exact h
      · exact List.mem_append_left _ h
  | addInstitution m => simp only [applyOp]; split <;> exact h
  | addTechnology m => simp only [applyOp]; split <;> exact h
  | addHasSkill cid m => simp only [applyOp]; split <;> exact h
  | addEducation cid e => exact h

theorem foldl_skills_mono (g : Graph) (ops : List WriteOp) {n : String}
    (h : n ∈ g.skills) : n ∈ (ops.foldl applyOp g).skills := by
  induction ops generalizing g with
  | nil => exact h
  | cons hd tl ih => exact ih _ (applyOp_skills_mono _ _ h)

theorem mem_skills_foldl (g : Graph) (ops : List WriteOp) {n : String}
    (h : WriteOp.addSkill n ∈ ops) : n ∈ (ops.foldl applyOp g).skills := by
  induction ops generalizing g with
  | nil => cases h
  | cons hd tl ih =>
      rcases List.mem_cons.1 h with h | h
      · rw [List.foldl_cons]
        apply foldl_skills_mono
        rw [← h]
        simp only [applyOp]
        split
        · assumption
        · exact List.mem_append_right _ (List.mem_singleton_self _)
      · exact ih _ h

theorem applyOp_skills_nodup (g : Graph) (op : WriteOp)
    (h : g.skills.Nodup) : (applyOp g op).skills.Nodup := by
  cases op with
  | addCandidate c => exact h
  | addSkill m =>
      simp only [applyOp]; split
      · exact h
      · rename_i hm
        refine List.nodup_append.2 ⟨h, List.nodup_singleton _, ?_⟩
        intro a ha hb
        rw [List.mem_singleton.1 hb] at ha
        exact hm ha
  | addInstitution m => simp only [applyOp]; split <;> exact h
  | addTechnology m => simp only [applyOp]; split <;> exact h
  | addHasSkill cid m => simp only [applyOp]; split <;> exact h
  | addEducation cid e => exact h

theorem foldl_skills_nodup (g : Graph) (ops : List WriteOp)
    (h : g.skills.Nodup) : (ops.foldl applyOp g).skills.Nodup := by
  induction ops generalizing g with
  | nil => exact h
  | cons hd tl ih => exact ih _ (applyOp_skills_nodup _ _ h)

theorem applyOp_hasSkill_mono (g : Graph) (op : WriteOp)
    {p : Checksum × String} (h : p ∈ g.hasSkill) :
    p ∈ (applyOp g op).hasSkill := by
  cases op with
  | addCandidate c => exact h
  | addSkill m => simp only [applyOp]; split <;> exact h
  | addInstitution m => simp only [applyOp]; split <;> exact h
  | addTechnology m => simp only [applyOp]; split <;> exact h
  | addHasSkill cid m =>
      simp only [applyOp]; split
      · exact h
      · exact List.mem_append_left _ h
  | addEducation cid e => exact h

theorem foldl_hasSkill_mono (g : Graph) (ops : List WriteOp)
    {p : Checksum × String} (h : p ∈ g.hasSkill) :
    p ∈ (ops.foldl applyOp g).hasSkill := by
  induction ops generalizing g with
  | nil => exact h
  | cons hd tl ih => exact ih _ (applyOp_hasSkill_mono _ _ h)

theorem mem_hasSkill_foldl (g : Graph) (ops : List WriteOp)
    {cid : Checksum} {n : String} (h : WriteOp.addHasSkill cid n ∈ ops) :
    (cid, n) ∈ (ops.foldl applyOp g).hasSkill := by
  induction ops generalizing g with
  | nil => cases h
  | cons hd tl ih =>
      rcases List.mem_cons.1 h with h | h
      · rw [List.foldl_cons]
        apply foldl_hasSkill_mono
        rw [← h]
        simp only [applyOp]
        split
        · assumption
        · exact List.mem_append_right _ (List.mem_singleton_self _)
      · exact ih _ h

theorem applyOp_institutions_mono (g : Graph) (op : WriteOp) {n : String}
    (h : n ∈ g.institutions) : n ∈ (applyOp g op).institutions := by
  cases op with
  | addCandidate c => exact h
  | addSkill m => simp only [applyOp]; split <;> exact h
  | addInstitution m =>
      simp only [applyOp]; split
      · exact h
      · exact List.mem_append_left _ h
  | addTechnology m => simp only [applyOp]; split <;> exact h
  | addHasSkill cid m => simp only [applyOp]; split <;> exact h
  | addEducation cid e => exact h

theorem foldl_institutions_mono (g : Graph) (ops : List WriteOp)
    {n : String} (h : n ∈ g.institutions) :
    n ∈ (ops.foldl applyOp g).institutions := by
  induction ops generalizing g with
  | nil => exact h
  | cons hd tl ih => exact ih _ (applyOp_institutions_mono _ _ h)

theorem mem_institutions_foldl (g : Graph) (ops : List WriteOp)
    {n : String} (h : WriteOp.addInstitution n ∈ ops) :
    n ∈ (ops.foldl applyOp g).institutions := by
  induction ops generalizing g with
  | nil => cases h
  | cons hd tl ih =>
      rcases List.mem_cons.1 h with h | h
      · rw [List.foldl_cons]
        apply foldl_institutions_mono
        rw [← h]
        simp only [applyOp]
        split
        · assumption
        · exact List.mem_append_right _ (List.mem_singleton_self _)
      · exact ih _ h

theorem applyOp_institutions_nodup (g : Graph) (op : WriteOp)
    (h : g.institutions.Nodup) : (applyOp g op).institutions.Nodup := by
  cases op with
  | addCandidate c => exact h
  | addSkill m => simp only [applyOp]; split <;> exact h
  | addInstitution m =>
      simp only [applyOp]; split
      · exact h
      · rename_i hm
        refine List.nodup_append.2 ⟨h, List.nodup_singleton _, ?_⟩
        intro a ha hb
        rw [List.mem_singleton.1 hb] at ha
        exact hm ha
  | addTechnology m => simp only [applyOp]; split <;> exact h
  | addHasSkill cid m => simp only [applyOp]; split <;> exact h
  | addEducation cid e => exact h

theorem foldl_institutions_nodup (g : Graph) (ops : List WriteOp)
    (h : g.institutions.Nodup) : (ops.foldl applyOp g).institutions.Nodup := by
  induction ops generalizing g with
  | nil => exact h
  | cons hd tl ih => exact ih _ (applyOp_institutions_nodup _ _ h)

theorem applyOp_technologies_mono (g : Graph) (op : WriteOp) {n : String}
    (h : n ∈ g.technologies) : n ∈ (applyOp g op).technologies := by
  cases op with
  | addCandidate c => exact h
  | addSkill m => simp only [applyOp]; split <;> exact h
  | addInstitution m => simp only [applyOp]; split <;> exact h
  | addTechnology m =>
      simp only [applyOp]; split
      · exact h
      · exact List.mem_append_left _ h
  | addHasSkill cid m => simp only [applyOp]; split <;> exact h
  | addEducation cid e => exact h

theorem foldl_technologies_mono (g : Graph) (ops : List WriteOp)
    {n : String} (h : n ∈ g.technologies) :
    n ∈ (ops.foldl applyOp g).technologies := by
  induction ops generalizing g with
  | nil => exact h
  | cons hd tl ih => exact ih _ (applyOp_technologies_mono _ _ h)

theorem mem_technologies_foldl (g : Graph) (ops : List WriteOp)
    {n : String} (h : WriteOp.addTechnology n ∈ ops) :
    n ∈ (ops.foldl applyOp g).technologies := by
  induction ops generalizing g with
  | nil => cases h
  | cons hd tl ih =>
      rcases List.mem_cons.1 h with h | h
      · rw [List.foldl_cons]
        apply foldl_technologies_mono
        rw [← h]
        simp only [applyOp]
        split
        · assumption
        · exact List.mem_append_right _ (List.mem_singleton_self _)
      · exact ih _ h

theorem applyOp_technologies_nodup (g : Graph) (op : WriteOp)
    (h : g.technologies.Nodup) : (applyOp g op).technologies.Nodup := by
  cases op with
  | addCandidate c => exact h
  | addSkill m => simp only [applyOp]; split <;> exact h
  | addInstitution m => simp only [applyOp]; split <;> exact h
  | addTechnology m =>
      simp only [applyOp]; split
      · exact h
      · rename_i hm
        refine List.nodup_append.2 ⟨h, List.nodup_singleton _, ?_⟩
        intro a ha hb
        rw [List.mem_singleton.1 hb] at ha
        exact hm ha
  | addHasSkill cid m => simp only [applyOp]; split <;> exact h
  | addEducation cid e => exact h

theorem foldl_technologies_nodup (g : Graph) (ops : List WriteOp)
    (h : g.technologies.Nodup) :
    (ops.foldl applyOp g).technologies.Nodup := by
  induction ops generalizing g with
  | nil => exact h
  | cons hd tl ih => exact ih _ (applyOp_technologies_nodup _ _ h)

theorem mem_planWrites_of_education {e : Education} {d : EntityDraft}
    (he : e ∈ d.education) (c : Checksum) :
    WriteOp.addInstitution (normalizeName e.institution) ∈ planWrites c d := by
  simp only [planWrites, List.mem_cons, List.mem_append, List.mem_flatMap]
  exact Or.inr (Or.inl (Or.inr ⟨e, he, by simp⟩))

theorem mem_planWrites_of_technology {p : Project} {t : String}
    {d : EntityDraft} (hp : p ∈ d.projects) (ht : t ∈ p.technologies)
    (c : Checksum) :
    WriteOp.addTechnology (normalizeName t) ∈ planWrites c d := by
  simp only [planWrites, List.mem_cons, List.mem_append, List.mem_flatMap,
    List.mem_map]
  exact Or.inr (Or.inr ⟨p, hp, t, ht, rfl⟩)

theorem mem_planWrites_of_skill {s : String} {d : EntityDraft}
    (hs : s ∈ d.skills) (c : Checksum) :
    WriteOp.addSkill (normalizeName s) ∈ planWrites c d ∧
    WriteOp.addHasSkill c (normalizeName s) ∈ planWrites c d := by
  constructor <;>
  · simp only [planWrites, List.mem_cons, List.mem_append, List.mem_flatMap]
    exact Or.inr (Or.inl (Or.inl ⟨s, hs, by simp⟩))

theorem upsert_fresh (g : Graph) (bytes : DocBytes) (d : EntityDraft)
    (h : checksum bytes ∉ g.candidates.map Candidate.cksum) :
    upsert_candidate g bytes d none =
      (IngestResult.ok (checksum bytes),
        (planWrites (checksum bytes) d).foldl applyOp g) := by
  simp only [upsert_candidate, runTransaction, if_neg h]

/-! ### Shallow evaluation lemmas for the ATS record -/

theorem ats_score_rate (jd ct : String) :
    (ats_score jd ct).keyword_match_rate =
      if (extractKeywords jd).length = 0 then 0
      else
        (((extractKeywords jd).filter
            (fun k => keywordMatches k ct)).length : ℚ) /
          ((extractKeywords jd).length : ℚ) * 100 := rfl

theorem ats_score_matching (jd ct : String) :
    (ats_score jd ct).matching_keywords =
      (extractKeywords jd).filter (fun k => keywordMatches k ct) := rfl

theorem ats_score_missing (jd ct : String) :
    (ats_score jd ct).missing_keywords =
      (extractKeywords jd).filter (fun k => !keywordMatches k ct) := rfl

/-! ### Polling loop lemmas -/

theorem pollAux_fst_le (oracle : Nat → PollResult) (attempts fuel : Nat) :
    (pollAux oracle attempts fuel).1 ≤ attempts + fuel + 1 := by
  induction fuel generalizing attempts with
  | zero =>
      simp only [pollAux]
      cases oracle attempts <;> simp
  | succ fuel' ih =>
      simp only [pollAux]
      cases oracle attempts with
      | pending => exact (ih (attempts + 1)).trans (by omega)
      | processed => simp
      | failed e => simp
      | networkError => simp

theorem pollAux_timeout (oracle : Nat → PollResult) (attempts fuel : Nat)
    (h : ∀ i, attempts ≤ i → i ≤ attempts + fuel →
      oracle i = PollResult.pending) :
    pollAux oracle attempts fuel =
      (attempts + fuel + 1, FileStatus.errorStatus "Processing timeout") := by
  induction fuel generalizing attempts with
  | zero =>
      have := h attempts le_rfl (le_refl _ |>.trans (by omega))
      simp only [pollAux, this]
  | succ fuel' ih =>
      have h0 := h attempts le_rfl (by omega)
      simp only [pollAux, h0]
      rw [ih (attempts + 1) (fun i hi hle => h i (by omega) (by omega))]
      have : attempts + 1 + fuel' + 1 = attempts + (fuel' + 1) + 1 := by omega
      rw [this]

theorem pollAux_first_stop (oracle : Nat → PollResult)
    (attempts fuel i : Nat) (hi : attempts ≤ i) (hle : i ≤ attempts + fuel)
    (hpend : ∀ j, attempts ≤ j → j < i → oracle j = PollResult.pending)
    (hstop : oracle i ≠ PollResult.pending) :
    pollAux oracle attempts fuel = (i + 1, stepStatus (oracle i)) := by
  induction fuel generalizing attempts with
  | zero =>
      have hia : i = attempts := by omega
      subst hia
      simp only [pollAux]
      cases h' : oracle i with
      | pending => exact absurd h' hstop
      | processed => rfl
      | failed e => rfl
      | networkError => rfl
  | succ fuel' ih =>
      rcases eq_or_lt_of_le hi with hia | hia
      · subst hia
        simp only [pollAux]
        cases h' : oracle attempts with
        | pending => exact absurd h' hstop
        | processed => rfl
        | failed e => rfl
        | networkError => rfl
      · have h0 := hpend attempts le_rfl hia
        simp only [pollAux, h0]
        exact ih (attempts + 1) hia (by omega)
          (fun j hj hlt => hpend j (by omega) hlt)

/-! ## Claim theorems -/

/-- C1: ingesting the same document bytes twice yields exactly one
Candidate carrying that checksum in the graph; the second ingestion call
performs no writes (it returns the graph unchanged) and returns
`DuplicateDocument`. -/
theorem C1_ingest_idempotent (g : Graph) (bytes : DocBytes)
    (d1 d2 : EntityDraft)
    (h : checksum bytes ∉ g.candidates.map Candidate.cksum) :
    (((upsert_candidate g bytes d1 none).2.candidates.map
        Candidate.cksum).count (checksum bytes) = 1) ∧
    upsert_candidate (upsert_candidate g bytes d1 none).2 bytes d2 none =
      (IngestResult.duplicateDocument,
        (upsert_candidate g bytes d1 none).2) := by
  have e1 : (upsert_candidate g bytes d1 none).2 =
      (planWrites (checksum bytes) d1).foldl applyOp g := by
    rw [upsert_fresh g bytes d1 h]
  constructor
  · rw [e1, candidates_fold_plan, List.map_append, List.count_append,
      List.count_eq_zero.2 h]
    simp
  · have hmem : checksum bytes ∈
        (upsert_candidate g bytes d1 none).2.candidates.map
          Candidate.cksum := by
      rw [e1, candidates_fold_plan, List.map_append]
      simp
    set G := (upsert_candidate g bytes d1 none).2 with hG
    simp only [upsert_candidate, if_pos hmem]

/-- Witness for C1: one document ingested twice into the empty graph. -/
theorem C1_witness :
    checksum [1, 2, 3] ∉ Graph.empty.candidates.map Candidate.cksum ∧
    ((((upsert_candidate Graph.empty [1, 2, 3]
          ⟨"Alice", ["Python"], [], []⟩ none).2.candidates.map
        Candidate.cksum).count (checksum [1, 2, 3]) = 1) ∧
      upsert_candidate
          (upsert_candidate Graph.empty [1, 2, 3]
            ⟨"Alice", ["Python"], [], []⟩ none).2 [1, 2, 3]
          ⟨"Alice", ["Python"], [], []⟩ none =
        (IngestResult.duplicateDocument,
          (upsert_candidate Graph.empty [1, 2, 3]
            ⟨"Alice", ["Python"], [], []⟩ none).2)) :=
  ⟨by decide,
    C1_ingest_idempotent Graph.empty [1, 2, 3] ⟨"Alice", ["Python"], [], []⟩
      ⟨"Alice", ["Python"], [], []⟩ (by decide)⟩

/-- C3: when the simulated graph write fails mid-transaction, the
ingestion reports `GraphWriteFailure` and the resulting graph is exactly
the pre-ingestion graph, so no Candidate, Skill, or Education node from
the document is visible afterward. -/
theorem C3_ingest_atomic (g : Graph) (bytes : DocBytes) (d : EntityDraft)
    (i : Nat)
    (hdup : checksum bytes ∉ g.candidates.map Candidate.cksum)
    (hi : i < (planWrites (checksum bytes) d).length) :
    upsert_candidate g bytes d (some i) =
      (IngestResult.graphWriteFailure, g) := by
  simp only [upsert_candidate, runTransaction, if_neg hdup, if_pos hi]

/-- Witness for C3: a transaction failing at its first write leaves the
empty graph unchanged. -/
theorem C3_witness :
    checksum [7] ∉ Graph.empty.candidates.map Candidate.cksum ∧
    0 < (planWrites (checksum [7])
      ⟨"Bob", ["Go"], [⟨"BS", "MIT", none⟩], []⟩).length ∧
    upsert_candidate Graph.empty [7]
        ⟨"Bob", ["Go"], [⟨"BS", "MIT", none⟩], []⟩ (some 0) =
      (IngestResult.graphWriteFailure, Graph.empty) :=
  ⟨by decide, by decide,
    C3_ingest_atomic Graph.empty [7] ⟨"Bob", ["Go"], [⟨"BS", "MIT", none⟩], []⟩
      0 (by decide) (by decide)⟩

/-- C2: two ingestions whose drafts list the same skill name up to
case/whitespace normalization leave exactly one Skill node carrying the
normalized name, referenced by both candidates via HAS_SKILL; and
Skill/Institution/Technology creation is get-or-create — the normalized
name lists stay duplicate-free, and every Institution (resp. Technology)
referenced by either draft's education (resp. project) entries exists as
exactly one node of its normalized name. -/
theorem C2_shared_skill_unique (g : Graph) (b1 b2 : DocBytes)
    (d1 d2 : EntityDraft) (s1 s2 : String)
    (hn : normalizeName s2 = normalizeName s1)
    (hs1 : s1 ∈ d1.skills) (hs2 : s2 ∈ d2.skills)
    (hnd : g.skills.Nodup)
    (hndI : g.institutions.Nodup)
    (hndT : g.technologies.Nodup)
    (hb : checksum b1 ≠ checksum b2)
    (h1 : checksum b1 ∉ g.candidates.map Candidate.cksum)
    (h2 : checksum b2 ∉ g.candidates.map Candidate.cksum) :
    ((upsert_candidate (upsert_candidate g b1 d1 none).2 b2 d2
        none).2.skills.count (normalizeName s1) = 1) ∧
    (upsert_candidate (upsert_candidate g b1 d1 none).2 b2 d2
        none).2.skills.Nodup ∧
    (checksum b1, normalizeName s1) ∈
      (upsert_candidate (upsert_candidate g b1 d1 none).2 b2 d2
        none).2.hasSkill ∧
    (checksum b2, normalizeName s1) ∈
      (upsert_candidate (upsert_candidate g b1 d1 none).2 b2 d2
        none).2.hasSkill ∧
    (upsert_candidate (upsert_candidate g b1 d1 none).2 b2 d2
        none).2.institutions.Nodup ∧
    (upsert_candidate (upsert_candidate g b1 d1 none).2 b2 d2
        none).2.technologies.Nodup ∧
    (∀ e ∈ d1.education,
      (upsert_candidate (upsert_candidate g b1 d1 none).2 b2 d2
        none).2.institutions.count (normalizeName e.institution) = 1) ∧
    (∀ e ∈ d2.education,
      (upsert_candidate (upsert_candidate g b1 d1 none).2 b2 d2
        none).2.institutions.count (normalizeName e.institution) = 1) ∧
    (∀ p ∈ d1.projects, ∀ t ∈ p.technologies,
      (upsert_candidate (upsert_candidate g b1 d1 none).2 b2 d2
        none).2.technologies.count (normalizeName t) = 1) ∧
    (∀ p ∈ d2.projects, ∀ t ∈ p.technologies,
      (upsert_candidate (upsert_candidate g b1 d1 none).2 b2 d2
        none).2.technologies.count (normalizeName t) = 1) := by
  have hplan1 := mem_planWrites_of_skill hs1 (checksum b1)
  have hplan2 := mem_planWrites_of_skill hs2 (checksum b2)
  have e1 : (upsert_candidate g b1 d1 none).2 =
      (planWrites (checksum b1) d1).foldl applyOp g := by
    rw [upsert_fresh g b1 d1 h1]
  have h2' : checksum b2 ∉
      (upsert_candidate g b1 d1 none).2.candidates.map Candidate.cksum := by
    rw [e1, candidates_fold_plan, List.map_append]
    simp only [List.mem_append, List.map_cons, List.map_nil,
      List.mem_singleton, not_or]
    exact ⟨h2, fun hc => hb hc.symm⟩
  have e2 : (upsert_candidate (upsert_candidate g b1 d1 none).2 b2 d2
      none).2 =
      (planWrites (checksum b2) d2).foldl applyOp
        ((planWrites (checksum b1) d1).foldl applyOp g) := by
    rw [upsert_fresh _ b2 d2 h2', e1]
  have hmem1 : normalizeName s1 ∈
      ((planWrites (checksum b1) d1).foldl applyOp g).skills :=
    mem_skills_foldl g _ hplan1.1
  have hnd2 : ((planWrites (checksum b2) d2).foldl applyOp
      ((planWrites (checksum b1) d1).foldl applyOp g)).skills.Nodup :=
    foldl_skills_nodup _ _ (foldl_skills_nodup _ _ hnd)
  have hndI2 : ((planWrites (checksum b2) d2).foldl applyOp
      ((planWrites (checksum b1) d1).foldl applyOp g)).institutions.Nodup :=
    foldl_institutions_nodup _ _ (foldl_institutions_nodup _ _ hndI)
  have hndT2 : ((planWrites (checksum b2) d2).foldl applyOp
      ((planWrites (checksum b1) d1).foldl applyOp g)).technologies.Nodup :=
    foldl_technologies_nodup _ _ (foldl_technologies_nodup _ _ hndT)
  rw [e2]
  refine ⟨List.count_eq_one_of_mem hnd2 (foldl_skills_mono _ _ hmem1),
    hnd2, ?_, ?_, hndI2, hndT2, ?_, ?_, ?_, ?_⟩
  · exact foldl_hasSkill_mono _ _ (mem_hasSkill_foldl g _ hplan1.2)
  · have hp := hplan2.2
    rw [hn] at hp
    exact mem_hasSkill_foldl _ _ hp
  · intro e he
    exact List.count_eq_one_of_mem hndI2 (foldl_institutions_mono _ _
      (mem_institutions_foldl g _ (mem_planWrites_of_education he
        (checksum b1))))
  · intro e he
    exact List.count_eq_one_of_mem hndI2 (mem_institutions_foldl _ _
      (mem_planWrites_of_education he (checksum b2)))
  · intro p hp t ht
    exact List.count_eq_one_of_mem hndT2 (foldl_technologies_mono _ _
      (mem_technologies_foldl g _ (mem_planWrites_of_technology hp ht
        (checksum b1))))
  · intro p hp t ht
    exact List.count_eq_one_of_mem hndT2 (mem_technologies_foldl _ _
      (mem_planWrites_of_technology hp ht (checksum b2)))

/-- Witness for C2: the drafts list "Python" and "python " (one Skill node
"python", referenced by both candidates), institutions "MIT " and "mit"
(one Institution node "mit"), and technologies "Docker" and "docker " (one
Technology node "docker"). -/
theorem C2_witness :
    (normalizeName "python " = normalizeName "Python" ∧
      Graph.empty.skills.Nodup ∧ Graph.empty.institutions.Nodup ∧
      Graph.empty.technologies.Nodup ∧
      checksum [1] ≠ checksum [2]) ∧
    ((upsert_candidate
        (upsert_candidate Graph.empty [1]
          ⟨"Alice", ["Python"], [⟨"BS", "MIT ", none⟩],
            [⟨"Proj", "dev", ["Docker"]⟩]⟩ none).2
        [2] ⟨"Bob", ["python "], [⟨"MS", "mit", none⟩],
          [⟨"Proj2", "lead", ["docker "]⟩]⟩ none).2.skills.count
          (normalizeName "Python") = 1 ∧
      (checksum [1], normalizeName "Python") ∈
        (upsert_candidate
          (upsert_candidate Graph.empty [1]
            ⟨"Alice", ["Python"], [⟨"BS", "MIT ", none⟩],
              [⟨"Proj", "dev", ["Docker"]⟩]⟩ none).2
          [2] ⟨"Bob", ["python "], [⟨"MS", "mit", none⟩],
            [⟨"Proj2", "lead", ["docker "]⟩]⟩ none).2.hasSkill ∧
      (checksum [2], normalizeName "Python") ∈
        (upsert_candidate
          (upsert_candidate Graph.empty [1]
            ⟨"Alice", ["Python"], [⟨"BS", "MIT ", none⟩],
              [⟨"Proj", "dev", ["Docker"]⟩]⟩ none).2
          [2] ⟨"Bob", ["python "], [⟨"MS", "mit", none⟩],
            [⟨"Proj2", "lead", ["docker "]⟩]⟩ none).2.hasSkill ∧
      (upsert_candidate
        (upsert_candidate Graph.empty [1]
          ⟨"Alice", ["Python"], [⟨"BS", "MIT ", none⟩],
            [⟨"Proj", "dev", ["Docker"]⟩]⟩ none).2
        [2] ⟨"Bob", ["python "], [⟨"MS", "mit", none⟩],
          [⟨"Proj2", "lead", ["docker "]⟩]⟩ none).2.institutions.count
          (normalizeName "MIT ") = 1 ∧
      (upsert_candidate
        (upsert_candidate Graph.empty [1]
          ⟨"Alice", ["Python"], [⟨"BS", "MIT ", none⟩],
            [⟨"Proj", "dev", ["Docker"]⟩]⟩ none).2
        [2] ⟨"Bob", ["python "], [⟨"MS", "mit", none⟩],
          [⟨"Proj2", "lead", ["docker "]⟩]⟩ none).2.institutions.count
          (normalizeName "mit") = 1 ∧
      (upsert_candidate
        (upsert_candidate Graph.empty [1]
          ⟨"Alice", ["Python"], [⟨"BS", "MIT ", none⟩],
            [⟨"Proj", "dev", ["Docker"]⟩]⟩ none).2
        [2] ⟨"Bob", ["python "], [⟨"MS", "mit", none⟩],
          [⟨"Proj2", "lead", ["docker "]⟩]⟩ none).2.technologies.count
          (normalizeName "Docker") = 1 ∧
      (upsert_candidate
        (upsert_candidate Graph.empty [1]
          ⟨"Alice", ["Python"], [⟨"BS", "MIT ", none⟩],
            [⟨"Proj", "dev", ["Docker"]⟩]⟩ none).2
        [2] ⟨"Bob", ["python "], [⟨"MS", "mit", none⟩],
          [⟨"Proj2", "lead", ["docker "]⟩]⟩ none).2.technologies.count
          (normalizeName "docker ") = 1) := by
  have h := C2_shared_skill_unique Graph.empty [1] [2]
    ⟨"Alice", ["Python"], [⟨"BS", "MIT ", none⟩],
      [⟨"Proj", "dev", ["Docker"]⟩]⟩
    ⟨"Bob", ["python "], [⟨"MS", "mit", none⟩],
      [⟨"Proj2", "lead", ["docker "]⟩]⟩ "Python" "python "
    (by decide) (by decide) (by decide) (by decide) (by decide) (by decide)
    (by decide) (by decide) (by decide)
  refine ⟨⟨by decide, by decide, by decide, by decide, by decide⟩,
    h.1, h.2.2.1, h.2.2.2.1, ?_, ?_, ?_, ?_⟩
  · exact h.2.2.2.2.2.2.1 ⟨"BS", "MIT ", none⟩ (by decide)
  · exact h.2.2.2.2.2.2.2.1 ⟨"MS", "mit", none⟩ (by decide)
  · exact h.2.2.2.2.2.2.2.2.1 ⟨"Proj", "dev", ["Docker"]⟩ (by decide)
      "Docker" (by decide)
  · exact h.2.2.2.2.2.2.2.2.2 ⟨"Proj2", "lead", ["docker "]⟩ (by decide)
      "docker " (by decide)

/-- C4: the band the UI attaches to a single-resume ATS score is "high"
iff the score is at least 70, "medium" iff it is at least 40 and below 70,
and "low" iff it is below 40. -/
theorem C4_score_bands (s : ℚ) :
    (scoreClass s = "high" ↔ 70 ≤ s) ∧
    (scoreClass s = "medium" ↔ 40 ≤ s ∧ s < 70) ∧
    (scoreClass s = "low" ↔ s < 40) := by
  unfold scoreClass
  split_ifs with h1 h2
  · refine ⟨⟨fun _ => h1, fun _ => rfl⟩, ?_, ?_⟩
    · exact ⟨fun h => absurd h (by decide),
        fun h => absurd h1 (not_le.2 h.2)⟩
    · exact ⟨fun h => absurd h (by decide),
        fun h => absurd h1 (not_le.2 (h.trans (by norm_num)))⟩
  · refine ⟨?_, ⟨fun _ => ⟨h2, not_le.1 h1⟩, fun _ => rfl⟩, ?_⟩
    · exact ⟨fun h => absurd h (by decide), fun h => absurd h h1⟩
    · exact ⟨fun h => absurd h (by decide),
        fun h => absurd h2 (not_le.2 h)⟩
  · refine ⟨?_, ?_, ⟨fun _ => not_le.1 h2, fun _ => rfl⟩⟩
    · exact ⟨fun h => absurd h (by decide), fun h => absurd h h1⟩
    · exact ⟨fun h => absurd h (by decide), fun h => absurd h.1 h2⟩

/-- Witness for C4: scores 85, 55 and 10 fall in the "high", "medium" and
"low" bands. -/
theorem C4_witness :
    scoreClass 85 = "high" ∧ scoreClass 55 = "medium" ∧
    scoreClass 10 = "low" :=
  ⟨(C4_score_bands 85).1.mpr (by norm_num),
    (C4_score_bands 55).2.1.mpr (by norm_num),
    (C4_score_bands 10).2.2.mpr (by norm_num)⟩

/-- C5: the ATS scorer is deterministic — equal
(job description, candidate text) pairs yield identical score,
matching_keywords and missing_keywords. -/
theorem C5_ats_deterministic (jd1 ct1 jd2 ct2 : String)
    (hjd : jd1 = jd2) (hct : ct1 = ct2) :
    (ats_score jd1 ct1).score = (ats_score jd2 ct2).score ∧
    (ats_score jd1 ct1).matching_keywords =
      (ats_score jd2 ct2).matching_keywords ∧
    (ats_score jd1 ct1).missing_keywords =
      (ats_score jd2 ct2).missing_keywords := by
  subst hjd
  subst hct
  exact ⟨rfl, rfl, rfl⟩

/-- Witness for C5: two calls on the same concrete pair coincide. -/
theorem C5_witness :
    (ats_score "python required" "python dev").score =
      (ats_score "python required" "python dev").score ∧
    (ats_score "python required" "python dev").matching_keywords =
      (ats_score "python required" "python dev").matching_keywords ∧
    (ats_score "python required" "python dev").missing_keywords =
      (ats_score "python required" "python dev").missing_keywords :=
  C5_ats_deterministic "python required" "python dev"
    "python required" "python dev" rfl rfl

/-- C6: keyword_match_rate is the number of matched job-description
keywords over the total number of keywords times 100; in particular when
the job description yields exactly the keywords "python" and "kubernetes"
and the candidate text contains "python" but not "kubernetes", the rate is
50 and the missing keywords are exactly ["kubernetes"]. -/
theorem C6_keyword_match_rate (jd ct : String) :
    ((ats_score jd ct).keyword_match_rate =
      ((ats_score jd ct).matching_keywords.length : ℚ) /
        ((extractKeywords jd).length : ℚ) * 100) ∧
    (extractKeywords jd = ["python", "kubernetes"] →
      keywordMatches "python" ct = true →
      keywordMatches "kubernetes" ct = false →
      (ats_score jd ct).keyword_match_rate = 50 ∧
      (ats_score jd ct).missing_keywords = ["kubernetes"]) := by
  constructor
  · rw [ats_score_rate, ats_score_matching]
    rcases Nat.eq_zero_or_pos (extractKeywords jd).length with h | h
    · rw [if_pos h, List.length_eq_zero.1 h]
      simp
    · rw [if_neg (Nat.pos_iff_ne_zero.1 h)]
  · intro hkw hpy hku
    have hm : (extractKeywords jd).filter
        (fun k => keywordMatches k ct) = ["python"] := by
      rw [hkw]
      simp [List.filter, hpy, hku]
    have hmiss : (extractKeywords jd).filter
        (fun k => !keywordMatches k ct) = ["kubernetes"] := by
      rw [hkw]
      simp [List.filter, hpy, hku]
    have hk : (extractKeywords jd).length = 2 := by rw [hkw]; rfl
    refine ⟨?_, ?_⟩
    · rw [ats_score_rate, hm, hk]
      norm_num
    · rw [ats_score_missing, hmiss]

/-- Witness for C6: the spec's end-to-end example, with a candidate text
containing "Python" but not "Kubernetes". -/
theorem C6_witness :
    (extractKeywords "Looking for Python and Kubernetes experience" =
        ["python", "kubernetes"] ∧
      keywordMatches "python" "Python developer" = true ∧
      keywordMatches "kubernetes" "Python developer" = false) ∧
    (ats_score "Looking for Python and Kubernetes experience"
        "Python developer").keyword_match_rate = 50 ∧
    (ats_score "Looking for Python and Kubernetes experience"
        "Python developer").missing_keywords = ["kubernetes"] :=
  ⟨⟨by decide, by decide, by decide⟩,
    (C6_keyword_match_rate "Looking for Python and Kubernetes experience"
      "Python developer").2 (by decide) (by decide) (by decide)⟩

/-- C7: `search` returns the stored segments reordered by descending
similarity with ties broken by insertion order and truncated to the first
`k` (so its length is `min k n`); in particular for three stored segments
with similarities 0.9, 0.5, 0.1 to the query, `search` with `k = 2`
returns the first two in that order. -/
theorem C7_search_ranking (store : List Segment) (q : List ℚ) (k : Nat)
    (s1 s2 s3 : Segment)
    (h1 : similarity q s1.vec = 9 / 10)
    (h2 : similarity q s2.vec = 5 / 10)
    (h3 : similarity q s3.vec = 1 / 10) :
    (search store q k).Sorted (rankedBefore q) ∧
    (store.insertionSort (rankedBefore q)).Perm store ∧
    (search store q k).length = min k store.length ∧
    search [s1, s2, s3] q 2 = [s1, s2] := by
  have r12 : rankedBefore q s1 s2 := by
    unfold rankedBefore
    rw [h1, h2]
    norm_num
  have r23 : rankedBefore q s2 s3 := by
    unfold rankedBefore
    rw [h2, h3]
    norm_num
  refine ⟨?_, List.perm_insertionSort _ _, ?_, ?_⟩
  · exact List.Pairwise.sublist (List.take_sublist _ _)
      (List.sorted_insertionSort (rankedBefore q) store)
  · rw [search, List.length_take, List.length_insertionSort]
  · have e3 : List.insertionSort (rankedBefore q) [s3] = [s3] := rfl
    have e23 : List.insertionSort (rankedBefore q) [s2, s3] = [s2, s3] := by
      have : List.insertionSort (rankedBefore q) [s2, s3] =
          List.orderedInsert (rankedBefore q) s2
            (List.insertionSort (rankedBefore q) [s3]) := rfl
      rw [this, e3, List.orderedInsert, if_pos r23]
    have e123 : List.insertionSort (rankedBefore q) [s1, s2, s3] =
        [s1, s2, s3] := by
      have : List.insertionSort (rankedBefore q) [s1, s2, s3] =
          List.orderedInsert (rankedBefore q) s1
            (List.insertionSort (rankedBefore q) [s2, s3]) := rfl
      rw [this, e23, List.orderedInsert, if_pos r12]
    rw [search, e123]
    rfl

/-- Witness for C7: concrete two-dimensional segments whose normalized
inner products with the query are 0.9, 0.5 and 0.1. -/
theorem C7_witness :
    (similarity [1, 0] (Segment.mk [] 0 "a" [9/10, 1/10]).vec = 9 / 10 ∧
      similarity [1, 0] (Segment.mk [] 1 "b" [5/10, 2/10]).vec = 5 / 10 ∧
      similarity [1, 0] (Segment.mk [] 2 "c" [1/10, 3/10]).vec = 1 / 10) ∧
    search [Segment.mk [] 0 "a" [9/10, 1/10],
        Segment.mk [] 1 "b" [5/10, 2/10],
        Segment.mk [] 2 "c" [1/10, 3/10]] [1, 0] 2 =
      [Segment.mk [] 0 "a" [9/10, 1/10], Segment.mk [] 1 "b" [5/10, 2/10]] := by
  have hs1 : similarity [1, 0] (Segment.mk [] 0 "a" [9/10, 1/10]).vec =
      9 / 10 := by
    simp [similarity]
  have hs2 : similarity [1, 0] (Segment.mk [] 1 "b" [5/10, 2/10]).vec =
      5 / 10 := by
    simp [similarity]
  have hs3 : similarity [1, 0] (Segment.mk [] 2 "c" [1/10, 3/10]).vec =
      1 / 10 := by
    simp [similarity]
  exact ⟨⟨hs1, hs2, hs3⟩,
    (C7_search_ranking [] [1, 0] 0 _ _ _ hs1 hs2 hs3).2.2.2⟩

/-- C8: the UI renders a query response as a query result exactly when its
success field is true, and as an error message — using the response's
error text, or the default — exactly when it is false. -/
theorem C8_query_rendering (r : QueryResponse) :
    ((∃ t, renderQueryResponse r = QueryView.results t) ↔
      r.success = true) ∧
    ((∃ t, renderQueryResponse r = QueryView.errorView t) ↔
      r.success = false) ∧
    (r.success = true →
      renderQueryResponse r = QueryView.results r.result) ∧
    (r.success = false →
      renderQueryResponse r =
        QueryView.errorView (jsOrDefault r.error "Failed to process query")) := by
  cases hs : r.success <;> simp [renderQueryResponse, hs]

/-- Witness for C8: a failed response renders as an error with its error
text; a successful one renders its result. -/
theorem C8_witness :
    renderQueryResponse ⟨false, "ignored", some "boom"⟩ =
      QueryView.errorView
        (jsOrDefault (some "boom") "Failed to process query") ∧
    renderQueryResponse ⟨true, "answer", none⟩ =
      QueryView.results "answer" :=
  ⟨(C8_query_rendering ⟨false, "ignored", some "boom"⟩).2.2.2 rfl,
    (C8_query_rendering ⟨true, "answer", none⟩).2.2.1 rfl⟩

/-- C9: only dropped files whose MIME type is exactly 'application/pdf'
are uploaded; when the dropped list contains no such file, no upload is
made and the warning toast is shown instead. -/
theorem C9_pdf_filter (dropped : List DroppedFile) :
    (∀ l, handleDrop dropped = DropAction.upload l →
      l = dropped.filter (fun f => f.mimeType == "application/pdf") ∧
      ∀ f ∈ l, f.mimeType = "application/pdf") ∧
    (dropped.filter (fun f => f.mimeType == "application/pdf") = [] →
      handleDrop dropped = DropAction.warn "Please select PDF files only") ∧
    (dropped.filter (fun f => f.mimeType == "application/pdf") ≠ [] →
      handleDrop dropped =
        DropAction.upload
          (dropped.filter (fun f => f.mimeType == "application/pdf"))) := by
  simp only [handleDrop]
  split_ifs with h
  · refine ⟨?_, fun _ => rfl, ?_⟩
    · intro l hl
      cases hl
    · intro hne
      exact absurd (List.length_eq_zero.1 h) hne
  · refine ⟨?_, ?_, fun _ => rfl⟩
    · intro l hl
      injection hl with h'
      subst h'
      refine ⟨rfl, fun f hf => ?_⟩
      simpa using (List.mem_filter.1 hf).2
    · intro h0
      exact absurd (by rw [h0]; rfl) h

/-- Witness for C9: a mixed drop uploads only the PDF; a PDF-free drop
warns and uploads nothing. -/
theorem C9_witness :
    handleDrop [⟨"a.pdf", "application/pdf"⟩, ⟨"b.txt", "text/plain"⟩] =
      DropAction.upload
        ([⟨"a.pdf", "application/pdf"⟩,
          (⟨"b.txt", "text/plain"⟩ : DroppedFile)].filter
          (fun f => f.mimeType == "application/pdf")) ∧
    handleDrop [⟨"b.txt", "text/plain"⟩] =
      DropAction.warn "Please select PDF files only" :=
  ⟨(C9_pdf_filter
      [⟨"a.pdf", "application/pdf"⟩, ⟨"b.txt", "text/plain"⟩]).2.2
      (by decide),
    (C9_pdf_filter [⟨"b.txt", "text/plain"⟩]).2.1 (by decide)⟩

/-- C10: the polling loop terminates — it makes at most 30 polls, stops
early at the first poll whose answer is not pending (reporting that
answer's status), and after 30 pending polls marks the file 'Processing
timeout'. -/
theorem C10_poll_terminates (oracle : Nat → PollResult) :
    (pollProcessingStatus oracle).1 ≤ maxAttempts ∧
    ((∀ i, i < maxAttempts → oracle i = PollResult.pending) →
      pollProcessingStatus oracle =
        (maxAttempts, FileStatus.errorStatus "Processing timeout")) ∧
    (∀ i, i < maxAttempts →
      (∀ j, j < i → oracle j = PollResult.pending) →
      oracle i ≠ PollResult.pending →
      pollProcessingStatus oracle = (i + 1, stepStatus (oracle i))) := by
  refine ⟨?_, ?_, ?_⟩
  · have h := pollAux_fst_le oracle 0 (maxAttempts - 1)
    simp only [maxAttempts] at h ⊢
    exact h.trans (by omega)
  · intro h
    have := pollAux_timeout oracle 0 (maxAttempts - 1)
      (fun i _ hle => h i (by simp only [maxAttempts] at hle ⊢; omega))
    simpa [pollProcessingStatus, maxAttempts] using this
  · intro i hi hpend hstop
    have := pollAux_first_stop oracle 0 (maxAttempts - 1) i (Nat.zero_le i)
      (by simp only [maxAttempts] at hi ⊢; omega)
      (fun j _ hlt => hpend j hlt) hstop
    simpa [pollProcessingStatus] using this

/-- Witness for C10: an always-pending backend times out after exactly 30
polls; a backend that reports 'processed' on the third poll stops after
three polls with success. -/
theorem C10_witness :
    pollProcessingStatus (fun _ => PollResult.pending) =
      (maxAttempts, FileStatus.errorStatus "Processing timeout") ∧
    pollProcessingStatus
        (fun n => if n = 2 then PollResult.processed else PollResult.pending) =
      (3, FileStatus.success) := by
  constructor
  · exact (C10_poll_terminates (fun _ => PollResult.pending)).2.1
      (fun _ _ => rfl)
  · have := (C10_poll_terminates
        (fun n => if n = 2 then PollResult.processed
          else PollResult.pending)).2.2 2
      (by simp [maxAttempts])
      (fun j hj => if_neg (by omega))
      (by decide)
    simpa using this

end IntelliGraph
